/-
Verification of the haricot HAR-analysis engine (src/libhar.rs).

This file gives a shallow embedding of the engine's document model and of its
operations: preview truncation (`cut_text`), name/value listing
(`print_name_vals`), the overview formatter (`print_overview`), body
extraction (`print_body`) and privacy-data expansion (`expand_privates` /
`expand_privates_2`), together with theorems that check the
natural-language specification's claims against the code.

Modelling conventions:
  * Rust strings are `String` (Lean strings are sequences of Unicode
    scalar values, as Rust's are); body texts that are byte-sliced are
    carried as `List Char`, and byte positions are computed from the
    UTF-8 size of each character.
  * Rust panics (out-of-bounds indexing, slicing a string at a byte index
    that is not a character boundary, `unwrap` on an `Err`,
    `unreachable!`) abort the process; they are modelled as a distinct
    error outcome (`Option` with `none`, or an explicit panic
    constructor), never as a normal result.
  * `serde_json::Value` is modelled by `Json`; numeric literals are kept
    as uninterpreted token strings because the engine never interprets
    numbers. Objects are association lists; parsing inserts keys in
    sorted order with later duplicates overwriting, mirroring the
    `BTreeMap` representation used by serde_json.
  * The external `url` crate's `Url::parse` is kept abstract: theorems
    about the overview quantify over an arbitrary parse function
    `String → Option ParsedUrl`, where a `ParsedUrl` records the part of
    a URL before the query and the optional query component
    (`set_query(None)` drops the query).
-/
import Mathlib

namespace Haricot

/-! ## Model of `serde_json::Value` -/

/-- Model of `serde_json::Value`.  Numeric literals are kept as their
uninterpreted source tokens (`num "1"`, `num "2.5"`): the engine never
performs arithmetic on, or compares, JSON numbers. -/
inductive Json where
  | null
  | bool (b : Bool)
  | num (lit : String)
  | str (s : String)
  | arr (elems : List Json)
  | obj (fields : List (String × Json))
deriving Repr

/-- Is this JSON value `Null`?  Models `v == serde_json::Value::Null`. -/
def Json.isNull : Json → Bool
  | .null => true
  | _ => false

/-- Lexicographic strict order on character lists by code point.  On
UTF-8 strings this coincides with Rust's byte-wise `Ord` for `String`. -/
def charListLt : List Char → List Char → Bool
  | [], [] => false
  | [], _ :: _ => true
  | _ :: _, [] => false
  | a :: as, b :: bs =>
    if a.toNat < b.toNat then true
    else if b.toNat < a.toNat then false
    else charListLt as bs

/-- Model of Rust's `String::cmp` producing `Ordering::Less`
(lexicographic by UTF-8 bytes, equivalently by code points). -/
def strLt (a b : String) : Bool := charListLt a.data b.data

/-- First binding of key `k` in an object's field list. -/
def lookupKey : List (String × Json) → String → Option Json
  | [], _ => none
  | (k', v) :: rest, k => if k' = k then some v else lookupKey rest k

/-- Replace the value of the first binding of key `k`. -/
def replaceKeyFirst : List (String × Json) → String → Json → List (String × Json)
  | [], _, _ => []
  | (k', v') :: rest, k, v =>
    if k' = k then (k, v) :: rest else (k', v') :: replaceKeyFirst rest k v

/-- Insert a binding at its sorted position (used when the key is absent),
mirroring `BTreeMap::insert` on the sorted field list. -/
def insertKeySorted : List (String × Json) → String → Json → List (String × Json)
  | [], k, v => [(k, v)]
  | (k', v') :: rest, k, v =>
    if k = k' then (k, v) :: rest
    else if strLt k k' then (k, v) :: (k', v') :: rest
    else (k', v') :: insertKeySorted rest k v

/-- `BTreeMap::insert` on a field list: overwrite the existing binding
when the key is present, otherwise insert at the sorted position. -/
def objInsert (fields : List (String × Json)) (k : String) (v : Json) :
    List (String × Json) :=
  if (lookupKey fields k).isSome then replaceKeyFirst fields k v
  else insertKeySorted fields k v

/-- Model of serde_json's non-mutating `Index<&str>` on `Value`:
`v["k"]` is the value bound to `k` when `v` is an object containing `k`,
and `Null` otherwise (missing key, or `v` not an object). -/
def Json.index (j : Json) (k : String) : Json :=
  match j with
  | .obj fields => (lookupKey fields k).getD .null
  | _ => .null

/-- Iterated non-mutating indexing: `v["a"]["b"]…`. -/
def Json.getPath (j : Json) : List String → Json
  | [] => j
  | k :: rest => (j.index k).getPath rest

/-- Model of serde_json's `IndexMut<&str>` chain followed by assignment:
`v["a"]["b"] = w`.  `IndexMut` turns a `Null` into an empty object,
inserts missing keys, and panics when the receiver is neither `Null` nor
an object; the panic is modelled as `none`. -/
def Json.setPath : Json → List String → Json → Option Json
  | _, [], v => some v
  | .null, k :: rest, v =>
      (Json.setPath .null rest v).map (fun w => .obj (objInsert [] k w))
  | .obj fields, k :: rest, v =>
      (Json.setPath ((lookupKey fields k).getD .null) rest v).map
        (fun w => .obj (objInsert fields k w))
  | _, _ :: _, _ => none

/-! ## UTF-8 encoding and decoding

The engine byte-slices body texts (`cut_text`), percent-decodes the byte
form of strings, and re-validates the decoded bytes as UTF-8
(`decode_utf8`).  We model bytes as `Nat` (values < 256). -/

/-- UTF-8 encoding of one Unicode scalar value. -/
def utf8EncodeChar (c : Char) : List Nat :=
  let n := c.toNat
  if n < 0x80 then [n]
  else if n < 0x800 then [0xC0 + n / 64, 0x80 + n % 64]
  else if n < 0x10000 then
    [0xE0 + n / 4096, 0x80 + (n / 64) % 64, 0x80 + n % 64]
  else
    [0xF0 + n / 262144, 0x80 + (n / 4096) % 64, 0x80 + (n / 64) % 64,
      0x80 + n % 64]

/-- Number of UTF-8 bytes of one character. -/
def charUtf8Len (c : Char) : Nat := (utf8EncodeChar c).length

/-- UTF-8 byte sequence of a character sequence (Rust `str::as_bytes`). -/
def utf8Bytes (s : List Char) : List Nat := (s.map utf8EncodeChar).flatten

/-- Byte length of a character sequence (Rust `str::len`). -/
def utf8Len (s : List Char) : Nat := (s.map charUtf8Len).sum

/-- Is `b` a UTF-8 continuation byte? -/
def isCont (b : Nat) : Bool := 0x80 ≤ b && b ≤ 0xBF

/-- Strict UTF-8 decoding (Rust `str::from_utf8` / `decode_utf8`):
rejects overlong forms, surrogates and out-of-range sequences.  `none`
models `Utf8Error`. -/
def utf8Decode : List Nat → Option (List Char)
  | [] => some []
  | b0 :: rest =>
    if b0 < 0x80 then (utf8Decode rest).map (fun cs => Char.ofNat b0 :: cs)
    else if b0 < 0xC2 then none
    else if b0 < 0xE0 then
      match rest with
      | b1 :: rest2 =>
        if isCont b1 then
          (utf8Decode rest2).map
            (fun cs => Char.ofNat ((b0 - 0xC0) * 64 + (b1 - 0x80)) :: cs)
        else none
      | [] => none
    else if b0 < 0xF0 then
      match rest with
      | b1 :: b2 :: rest3 =>
        let okB1 : Bool :=
          if b0 = 0xE0 then 0xA0 ≤ b1 && b1 ≤ 0xBF
          else if b0 = 0xED then 0x80 ≤ b1 && b1 ≤ 0x9F
          else isCont b1
        if okB1 && isCont b2 then
          (utf8Decode rest3).map
            (fun cs =>
              Char.ofNat (((b0 - 0xE0) * 64 + (b1 - 0x80)) * 64 + (b2 - 0x80))
                :: cs)
        else none
      | _ => none
    else if b0 < 0xF5 then
      match rest with
      | b1 :: b2 :: b3 :: rest4 =>
        let okB1 : Bool :=
          if b0 = 0xF0 then 0x90 ≤ b1 && b1 ≤ 0xBF
          else if b0 = 0xF4 then 0x80 ≤ b1 && b1 ≤ 0x8F
          else isCont b1
        if okB1 && isCont b2 && isCont b3 then
          (utf8Decode rest4).map
            (fun cs =>
              Char.ofNat
                ((((b0 - 0xF0) * 64 + (b1 - 0x80)) * 64 + (b2 - 0x80)) * 64
                  + (b3 - 0x80)) :: cs)
        else none
      | _ => none
    else none

/-- Value of one hex-digit byte, if it is one. -/
def hexDigitByte (b : Nat) : Option Nat :=
  if 0x30 ≤ b && b ≤ 0x39 then some (b - 0x30)
  else if 0x41 ≤ b && b ≤ 0x46 then some (b - 0x41 + 10)
  else if 0x61 ≤ b && b ≤ 0x66 then some (b - 0x61 + 10)
  else none

/-- Model of `url::percent_encoding::percent_decode` (url crate 1.x):
each `%` followed by two hex digits becomes the encoded byte; a `%` not
followed by two hex digits is passed through unchanged.  This step never
fails. -/
def percentDecodeBytes : List Nat → List Nat
  | [] => []
  | 0x25 :: b1 :: b2 :: rest =>
    match hexDigitByte b1, hexDigitByte b2 with
    | some h, some l => (h * 16 + l) :: percentDecodeBytes rest
    | _, _ => 0x25 :: percentDecodeBytes (b1 :: b2 :: rest)
  | b :: rest => b :: percentDecodeBytes rest

/-! ## Strict JSON parsing (model of `serde_json::from_str`) -/

/-- JSON insignificant whitespace. -/
def isJsonWs (c : Char) : Bool := c = ' ' || c = '\t' || c = '\n' || c = '\r'

/-- Skip insignificant whitespace. -/
def skipWs : List Char → List Char
  | [] => []
  | c :: rest => if isJsonWs c then skipWs rest else c :: rest

/-- Value of a hex digit character, if it is one. -/
def hexDigitVal (c : Char) : Option Nat :=
  if '0' ≤ c && c ≤ '9' then some (c.toNat - 0x30)
  else if 'A' ≤ c && c ≤ 'F' then some (c.toNat - 0x41 + 10)
  else if 'a' ≤ c && c ≤ 'f' then some (c.toNat - 0x61 + 10)
  else none

/-- Body of a JSON string literal, after the opening quote.  Handles the
standard escapes and `\uXXXX` (with mandatory surrogate pairing, as
serde_json rejects lone surrogates); rejects unescaped control
characters.  Returns the decoded string and the rest of the input. -/
def parseStringBody : List Char → List Char → Option (String × List Char)
  | _, [] => none
  | acc, c :: rest =>
    if c = '"' then some (String.mk acc.reverse, rest)
    else if c = '\\' then
      match rest with
      | [] => none
      | e :: rest2 =>
        if e = '"' then parseStringBody ('"' :: acc) rest2
        else if e = '\\' then parseStringBody ('\\' :: acc) rest2
        else if e = '/' then parseStringBody ('/' :: acc) rest2
        else if e = 'b' then parseStringBody (Char.ofNat 8 :: acc) rest2
        else if e = 'f' then parseStringBody (Char.ofNat 12 :: acc) rest2
        else if e = 'n' then parseStringBody ('\n' :: acc) rest2
        else if e = 'r' then parseStringBody ('\r' :: acc) rest2
        else if e = 't' then parseStringBody ('\t' :: acc) rest2
        else if e = 'u' then
          match rest2 with
          | h1 :: h2 :: h3 :: h4 :: rest3 =>
            match hexDigitVal h1, hexDigitVal h2, hexDigitVal h3, hexDigitVal h4 with
            | some a, some b, some c2, some d =>
              let n := ((a * 16 + b) * 16 + c2) * 16 + d
              if n < 0xD800 || 0xE000 ≤ n then
                parseStringBody (Char.ofNat n :: acc) rest3
              else if n < 0xDC00 then
                match rest3 with
                | '\\' :: 'u' :: g1 :: g2 :: g3 :: g4 :: rest4 =>
                  match hexDigitVal g1, hexDigitVal g2, hexDigitVal g3, hexDigitVal g4 with
                  | some a2, some b2, some c3, some d2 =>
                    let m := ((a2 * 16 + b2) * 16 + c3) * 16 + d2
                    if 0xDC00 ≤ m && m < 0xE000 then
                      parseStringBody
                        (Char.ofNat (0x10000 + (n - 0xD800) * 0x400 + (m - 0xDC00)) :: acc)
                        rest4
                    else none
                  | _, _, _, _ => none
                | _ => none
              else none
            | _, _, _, _ => none
          | _ => none
        else none
    else if c.toNat < 0x20 then none
    else parseStringBody (c :: acc) rest

/-- Longest digit run at the front of the input. -/
def takeDigits : List Char → List Char × List Char
  | [] => ([], [])
  | c :: rest =>
    if c.isDigit then
      let p := takeDigits rest
      (c :: p.1, p.2)
    else ([], c :: rest)

/-- JSON number token (strict grammar: `-? int frac? exp?`, no leading
zeros).  The lexeme is returned uninterpreted. -/
def parseNumber (s : List Char) : Option (String × List Char) :=
  let signAndRest : List Char × List Char :=
    match s with
    | '-' :: rest => (['-'], rest)
    | _ => ([], s)
  let sign := signAndRest.1
  match signAndRest.2 with
  | [] => none
  | c :: rest =>
    let intDone : Option (List Char × List Char) :=
      if c = '0' then some (sign ++ ['0'], rest)
      else if c.isDigit then
        let p := takeDigits rest
        some (sign ++ c :: p.1, p.2)
      else none
    match intDone with
    | none => none
    | some (lex1, s1) =>
      let fracDone : Option (List Char × List Char) :=
        match s1 with
        | '.' :: s2 =>
          match takeDigits s2 with
          | ([], _) => none
          | (ds, s3) => some (lex1 ++ '.' :: ds, s3)
        | _ => some (lex1, s1)
      match fracDone with
      | none => none
      | some (lex2, s4) =>
        match s4 with
        | 'e' :: s5 =>
          match s5 with
          | '+' :: s6 =>
            match takeDigits s6 with
            | ([], _) => none
            | (ds, s7) => some (String.mk (lex2 ++ 'e' :: '+' :: ds), s7)
          | '-' :: s6 =>
            match takeDigits s6 with
            | ([], _) => none
            | (ds, s7) => some (String.mk (lex2 ++ 'e' :: '-' :: ds), s7)
          | _ =>
            match takeDigits s5 with
            | ([], _) => none
            | (ds, s7) => some (String.mk (lex2 ++ 'e' :: ds), s7)
        | 'E' :: s5 =>
          match s5 with
          | '+' :: s6 =>
            match takeDigits s6 with
            | ([], _) => none
            | (ds, s7) => some (String.mk (lex2 ++ 'E' :: '+' :: ds), s7)
          | '-' :: s6 =>
            match takeDigits s6 with
            | ([], _) => none
            | (ds, s7) => some (String.mk (lex2 ++ 'E' :: '-' :: ds), s7)
          | _ =>
            match takeDigits s5 with
            | ([], _) => none
            | (ds, s7) => some (String.mk (lex2 ++ 'E' :: ds), s7)
        | _ => some (String.mk lex2, s4)

mutual

/-- One JSON value (recursive descent; `fuel` bounds nesting and is
taken as input length + 1 at top level, which every recursion step's
mandatory consumed character keeps sufficient). -/
def parseVal : Nat → List Char → Option (Json × List Char)
  | 0, _ => none
  | fuel + 1, s =>
    match skipWs s with
    | [] => none
    | c :: rest =>
      if c = 'n' then
        match rest with
        | 'u' :: 'l' :: 'l' :: r => some (.null, r)
        | _ => none
      else if c = 't' then
        match rest with
        | 'r' :: 'u' :: 'e' :: r => some (.bool true, r)
        | _ => none
      else if c = 'f' then
        match rest with
        | 'a' :: 'l' :: 's' :: 'e' :: r => some (.bool false, r)
        | _ => none
      else if c = '"' then
        (parseStringBody [] rest).map (fun p => (.str p.1, p.2))
      else if c = '\x7b' then
        match skipWs rest with
        | '\x7d' :: r => some (.obj [], r)
        | r2 => (parseMembers fuel [] r2).map (fun p => (.obj p.1, p.2))
      else if c = '[' then
        match skipWs rest with
        | ']' :: r => some (.arr [], r)
        | r2 => (parseElems fuel [] r2).map (fun p => (.arr p.1, p.2))
      else
        (parseNumber (c :: rest)).map (fun p => (.num p.1, p.2))

/-- Members of a JSON object after the opening brace (non-empty case).
Keys are inserted in sorted order, later duplicates overwriting, as in
serde_json's `BTreeMap`-backed objects. -/
def parseMembers : Nat → List (String × Json) → List Char →
    Option (List (String × Json) × List Char)
  | 0, _, _ => none
  | fuel + 1, acc, s =>
    match skipWs s with
    | '"' :: rest =>
      match parseStringBody [] rest with
      | none => none
      | some (k, r1) =>
        match skipWs r1 with
        | ':' :: r2 =>
          match parseVal fuel r2 with
          | none => none
          | some (v, r3) =>
            match skipWs r3 with
            | ',' :: r4 => parseMembers fuel (objInsert acc k v) r4
            | '\x7d' :: r4 => some (objInsert acc k v, r4)
            | _ => none
        | _ => none
    | _ => none

/-- Elements of a JSON array after the opening bracket (non-empty case). -/
def parseElems : Nat → List Json → List Char → Option (List Json × List Char)
  | 0, _, _ => none
  | fuel + 1, acc, s =>
    match parseVal fuel s with
    | none => none
    | some (v, r1) =>
      match skipWs r1 with
      | ',' :: r2 => parseElems fuel (v :: acc) r2
      | ']' :: r2 => some ((v :: acc).reverse, r2)
      | _ => none

end

/-- Model of `serde_json::from_str`: one JSON value, optionally
surrounded by whitespace, covering the whole input. -/
def json_from_str (text : List Char) : Option Json :=
  match parseVal (text.length + 1) text with
  | some (j, rest) => if (skipWs rest).isEmpty then some j else none
  | none => none

/-! ## JSON display (model of `Display for serde_json::Value`) -/

/-- Lower-case hex digit. -/
def hexLower (n : Nat) : Char :=
  if n < 10 then Char.ofNat (0x30 + n) else Char.ofNat (0x61 + (n - 10))

/-- serde_json's compact string escaping: `"`, `\`, the named control
escapes, and `\u00XX` for the remaining control characters. -/
def renderStringEscape (c : Char) : List Char :=
  if c = '"' then ['\\', '"']
  else if c = '\\' then ['\\', '\\']
  else if c = '\n' then ['\\', 'n']
  else if c = '\r' then ['\\', 'r']
  else if c = '\t' then ['\\', 't']
  else if c = Char.ofNat 8 then ['\\', 'b']
  else if c = Char.ofNat 12 then ['\\', 'f']
  else if c.toNat < 0x20 then
    ['\\', 'u', '0', '0', hexLower (c.toNat / 16), hexLower (c.toNat % 16)]
  else [c]

mutual

/-- Compact rendering of a JSON value, as printed by
`println!("{}", value)` on a `serde_json::Value`. -/
def Json.render : Json → String
  | .null => "null"
  | .bool true => "true"
  | .bool false => "false"
  | .num lit => lit
  | .str s => "\"" ++ String.mk (s.data.map renderStringEscape).flatten ++ "\""
  | .arr xs => "[" ++ renderElems xs ++ "]"
  | .obj fs => "\x7b" ++ renderFields fs ++ "\x7d"

/-- Comma-separated rendering of array elements. -/
def renderElems : List Json → String
  | [] => ""
  | [x] => x.render
  | x :: y :: rest => x.render ++ "," ++ renderElems (y :: rest)

/-- Comma-separated rendering of object members. -/
def renderFields : List (String × Json) → String
  | [] => ""
  | [(k, v)] => (Json.str k).render ++ ":" ++ v.render
  | (k, v) :: kv :: rest =>
    (Json.str k).render ++ ":" ++ v.render ++ "," ++ renderFields (kv :: rest)

end

/-! ## Privacy-data expansion (`expand_privates`, `expand_privates_2`) -/

/-- The failure modes of privacy-data expansion: the `Box<Error>` values
that `expand_privates` can return (`decode_utf8` failure or a
serde_json parse failure; percent-decoding itself never fails). -/
inductive ExpErr where
  | utf8Err
  | jsonErr
deriving Repr, DecidableEq

/-- Model of `expand_privates_2`: when the private-data value is a
string, percent-decode its UTF-8 bytes, re-decode them as UTF-8 and
parse the result as JSON; any other value is returned unchanged. -/
def expand_privates_2 (pr : Json) : Except ExpErr Json :=
  match pr with
  | .str s =>
    match utf8Decode (percentDecodeBytes (utf8Bytes s.data)) with
    | none => .error .utf8Err
    | some cs =>
      match json_from_str cs with
      | none => .error .jsonErr
      | some j => .ok j
  | pr => .ok pr

/-- Path A of the private-data search. -/
def pathA : List String := ["AddDevice", "DevicePrivateData"]

/-- Path B of the private-data search. -/
def pathB : List String := ["Resource", "Device", "DevicePrivateData"]

/-- The part of `expand_privates` after the body text has been parsed:
try path A, then path B; a non-null value is expanded in place.  The
outer `Option` models the (unreachable, see
`setPath_getPath_of_ne_null`) `IndexMut` panic of the write-back. -/
def expand_parsed (doc : Json) : Option (Except ExpErr Json) :=
  let pr := doc.getPath pathA
  if !pr.isNull then
    match expand_privates_2 pr with
    | .error e => some (.error e)
    | .ok v => (doc.setPath pathA v).map Except.ok
  else
    let pr2 := doc.getPath pathB
    if !pr2.isNull then
      match expand_privates_2 pr2 with
      | .error e => some (.error e)
      | .ok v => (doc.setPath pathB v).map Except.ok
    else some (.ok doc)

/-- Model of `expand_privates`: parse the body text as JSON, then expand
the private-data value found at path A or path B, if any. -/
def expand_privates (text : List Char) : Option (Except ExpErr Json) :=
  match json_from_str text with
  | none => some (.error .jsonErr)
  | some doc => expand_parsed doc

/-! ## Preview truncation (`cut_text`) -/

/-- The byte slice `text[..n]` of Rust, on a character list: `none`
models the panic raised when byte index `n` is not a character
boundary. -/
def byteTake : List Char → Nat → Option (List Char)
  | _, 0 => some []
  | [], _ + 1 => none
  | c :: rest, n + 1 =>
    if charUtf8Len c ≤ n + 1 then
      (byteTake rest (n + 1 - charUtf8Len c)).map (fun p => c :: p)
    else none

/-- Rust `str::replace` for a single-character pattern. -/
def replaceChar (s : List Char) (t : Char) (r : List Char) : List Char :=
  (s.map (fun c => if c = t then r else [c])).flatten

/-- The three escape replacements of `cut_text`, in source order. -/
def escapeCtl (s : List Char) : List Char :=
  replaceChar (replaceChar (replaceChar s '\n' ['\\', 'n']) '\r' ['\\', 'r'])
    '\t' ['\\', 't']

/-- Unicode `White_Space`, the set trimmed by Rust's `str::trim`. -/
def isRustWhitespace (c : Char) : Bool :=
  let n := c.toNat
  n = 0x20 || (0x9 ≤ n && n ≤ 0xD) || n = 0x85 || n = 0xA0 || n = 0x1680 ||
    (0x2000 ≤ n && n ≤ 0x200A) || n = 0x2028 || n = 0x2029 || n = 0x202F ||
    n = 0x205F || n = 0x3000

/-- Rust `str::trim`: drop leading and trailing whitespace. -/
def trimChars (s : List Char) : List Char :=
  ((s.dropWhile isRustWhitespace).reverse.dropWhile isRustWhitespace).reverse

/-- Model of `cut_text`: slice the text to its first
`min maxlen (byte length)` bytes (a byte-indexed cut; `none` models the
panic when the cut falls inside a multi-byte character), then render
newline, carriage return and tab as two-character escapes, then trim
whitespace. -/
def cut_text (text : List Char) (maxlen : Nat) : Option (List Char) :=
  (byteTake text (min maxlen (utf8Len text))).map
    (fun s => trimChars (escapeCtl s))

/-! ## The HAR document model (`libhar.rs` structs) -/

/-- `Creator`. -/
structure Creator where
  name : String
  version : String

/-- `NameValue`: one header or query-string pair. -/
structure NameValue where
  name : String
  value : String
deriving Repr, DecidableEq

/-- `PostData`.  The body text is carried as a character list because
`cut_text` byte-slices it. -/
structure PostData where
  mimeType : String
  text : List Char

/-- `Request`.  `postData` is `#[serde(default)]`, hence optional. -/
structure Request where
  method : String
  url : String
  httpVersion : String
  headers : List NameValue
  queryString : List NameValue
  cookies : Json
  headersSize : Nat
  bodySize : Nat
  postData : Option PostData

/-- `ResponseContent`. -/
structure ResponseContent where
  size : Nat
  mimeType : String
  compression : Int
  text : List Char

/-- `Response`. -/
structure Response where
  status : Nat
  statusText : String
  httpVersion : String
  headers : List NameValue
  cookies : Json
  content : ResponseContent
  redirectURL : String
  headersSize : Nat
  bodySize : Nat
  transferSize : Json

/-- `Entry`: one recorded exchange. -/
structure Entry where
  startedDateTime : String
  time : Float
  request : Request
  response : Response
  cache : Json
  timings : Json
  serverIPAddress : Json
  connection : Json

/-- `Log`. -/
structure Log where
  version : String
  creator : Creator
  pages : List String
  entries : List Entry

/-- `Doc`: the decoded HAR document. -/
structure Doc where
  log : Log

/-! ## Name/value listing (`print_name_vals`) -/

/-- `a` sorts no later than `b` under `sort_by(|a, b| a.name.cmp(&b.name))`. -/
def nameLe (a b : NameValue) : Bool := !strLt b.name a.name

/-- Insertion into a sorted list, before the first element that `a` may
precede.  Inserting before equal names keeps the original relative
order, which is exactly the stability guarantee of Rust's `sort_by`. -/
def insertByName (a : NameValue) : List NameValue → List NameValue
  | [] => [a]
  | b :: l => if nameLe a b then a :: b :: l else b :: insertByName a l

/-- Model of `sorted.sort_by(|a, b| a.name.cmp(&b.name))`: Rust's sort
is stable, and a stable sort's output is unique, so insertion sort
computes it. -/
def sortByName : List NameValue → List NameValue
  | [] => []
  | a :: l => insertByName a (sortByName l)

/-- The pairs `print_name_vals` displays, in display order: sorted by
name, a pair shown unless its name is in the exclude list. -/
def shownNameVals (nvs : List NameValue) (excludes : Option (List String)) :
    List NameValue :=
  (sortByName nvs).filter fun nv =>
    match excludes with
    | some excl => !excl.contains nv.name
    | none => true

/-- Rust `format!("{:20}", s)`: left-justified padding to 20 characters. -/
def padTo (s : String) (w : Nat) : String :=
  s ++ String.mk (List.replicate (w - s.length) ' ')

/-- The line printed for one displayed pair. -/
def renderNameVal (nv : NameValue) : String :=
  "        " ++ padTo (nv.name ++ ":") 20 ++ " " ++ nv.value

/-- Model of `print_name_vals`: the printed lines. -/
def print_name_vals (nvs : List NameValue) (excludes : Option (List String)) :
    List String :=
  (shownNameVals nvs excludes).map renderNameVal

/-! ## Overview (`print_overview`)

`Url::parse` comes from the external `url` crate; we model parsed URLs
abstractly and quantify theorems over an arbitrary parse function. -/

/-- Abstract model of a parsed `url::Url`: the rendered part before any
query, and the optional query component. -/
structure ParsedUrl where
  base : String
  query : Option String

/-- `url.set_query(None)`. -/
def ParsedUrl.set_query_none (u : ParsedUrl) : ParsedUrl :=
  ⟨u.base, none⟩

/-- Display of a parsed URL. -/
def ParsedUrl.render (u : ParsedUrl) : String :=
  u.base ++ match u.query with
    | some q => "?" ++ q
    | none => ""

/-- How a `print_overview` iteration can stop early: `Url::parse`
returning `Err` (propagated by `?`), or the `cut_text` byte-boundary
panic. -/
inductive Abort where
  | urlErr
  | cutPanic
deriving Repr, DecidableEq

/-- Query-string block of one entry. -/
def entryQueryLines (req : Request) (qse : Option (List String)) : List String :=
  if req.queryString.length > 0 then
    "    Query String:" :: print_name_vals req.queryString qse
  else []

/-- Request-headers block of one entry. -/
def entryHeaderLines (req : Request) (he : Option (List String)) : List String :=
  if req.headers.length > 0 then
    "    Headers:" :: print_name_vals req.headers he
  else []

/-- Response block of one entry: status line, headers, content, and the
blank-line separator; stops at the `cut_text` panic if the content text
has a bad byte-80 boundary. -/
def render_resp (he : Option (List String)) (ix : Nat) (resp : Response) :
    List String × Option Abort :=
  let rline := toString ix ++ "/ RESPONSE:                 " ++
    toString resp.status ++ " " ++ resp.statusText
  let rh :=
    if resp.headers.length > 0 then
      "    Headers:" :: print_name_vals resp.headers he
    else []
  let chead := ["    Content:",
    "        Mime-Type:           " ++ resp.content.mimeType,
    "        Size:                " ++ toString resp.content.size]
  match cut_text resp.content.text 80 with
  | none => (rline :: rh ++ chead, some .cutPanic)
  | some ct =>
    (rline :: rh ++ chead ++
      ["        Text:                " ++ String.mk ct ++ "…", "\n\n"],
      none)

/-- One entry of the overview: the lines it prints, and whether it stops
the run (URL parse failure, or a `cut_text` panic). -/
def render_entry (parseUrl : String → Option ParsedUrl) (short_url : Bool)
    (qse he : Option (List String)) (ix : Nat) (e : Entry) :
    List String × Option Abort :=
  match parseUrl e.request.url with
  | none => ([], some .urlErr)
  | some u0 =>
    let u := if short_url then u0.set_query_none else u0
    let line1 := toString ix ++ "/ " ++ e.request.method ++ " " ++ u.render
    let front := line1 :: entryQueryLines e.request qse ++
      entryHeaderLines e.request he
    match e.request.postData with
    | some pd =>
      let pdhead := ["    Post Data:",
        "        Mime-Type:           " ++ pd.mimeType,
        "        Length:              " ++ toString (utf8Len pd.text)]
      match cut_text pd.text 80 with
      | none => (front ++ pdhead, some .cutPanic)
      | some ct =>
        let r := render_resp he ix e.response
        (front ++ pdhead ++
          ["        Text:                " ++ String.mk ct ++ "…"] ++ r.1,
          r.2)
    | none =>
      let r := render_resp he ix e.response
      (front ++ r.1, r.2)

/-- The entry loop of `print_overview`: renders entries in order,
stopping at the first aborting entry. -/
def overviewLoop (parseUrl : String → Option ParsedUrl) (short_url : Bool)
    (qse he : Option (List String)) : Nat → List Entry →
    List String × Option Abort
  | _, [] => ([], none)
  | ix, e :: rest =>
    match render_entry parseUrl short_url qse he ix e with
    | (lines, some ab) => (lines, some ab)
    | (lines, none) =>
      let r := overviewLoop parseUrl short_url qse he (ix + 1) rest
      (lines ++ r.1, r.2)

/-- Model of `print_overview`: the printed lines (starting with the
entry count) and how the run ended (`none` = completed normally). -/
def print_overview (parseUrl : String → Option ParsedUrl) (doc : Doc)
    (short_url : Bool) (qse he : Option (List String)) :
    List String × Option Abort :=
  let r := overviewLoop parseUrl short_url qse he 0 doc.log.entries
  ((toString doc.log.entries.length ++ " entries") :: r.1, r.2)

/-! ## Body extraction (`print_body`) -/

/-- The panics `print_body` can raise: `entries[num]` out of bounds,
`unwrap()` on a failed expansion, the (unreachable) serde_json
`IndexMut` panic inside the write-back, and the `unreachable!()` arm for
an unrecognized `which`. -/
inductive BodyPanic where
  | indexOutOfBounds (len idx : Nat)
  | unwrapFailed (e : ExpErr)
  | jsonIndexPanic
  | unreachableWhich
deriving Repr, DecidableEq

/-- Model of `print_body`: the printed lines, or the panic that aborts
the call. -/
def print_body (doc : Doc) (num : Nat) (which : String) (ecs : Bool) :
    Except BodyPanic (List String) :=
  match doc.log.entries[num]? with
  | none => .error (.indexOutOfBounds doc.log.entries.length num)
  | some e =>
    match which with
    | "req" =>
      match e.request.postData with
      | some data =>
        if ecs then
          match expand_privates data.text with
          | some (.ok j) => .ok [j.render]
          | some (.error er) => .error (.unwrapFailed er)
          | none => .error .jsonIndexPanic
        else .ok [String.mk data.text]
      | none => .ok ["Request " ++ toString num ++ " has no post data"]
    | "resp" =>
      if ecs then
        match expand_privates e.response.content.text with
        | some (.ok j) => .ok [j.render]
        | some (.error er) => .error (.unwrapFailed er)
        | none => .error .jsonIndexPanic
      else .ok [String.mk e.response.content.text]
    | _ => .error .unreachableWhich

/-! ## Lemmas about JSON paths -/

theorem Json.isNull_eq_false {j : Json} : j.isNull = false ↔ j ≠ .null := by
  cases j <;> simp [Json.isNull]

theorem getPath_null (p : List String) : Json.getPath .null p = .null := by
  induction p with
  | nil => rfl
  | cons k rest ih => simpa [Json.getPath, Json.index] using ih

theorem replaceKeyFirst_lookup_self :
    ∀ (fields : List (String × Json)) (k : String) (v : Json),
      lookupKey fields k = some v → replaceKeyFirst fields k v = fields := by
  intro fields
  induction fields with
  | nil => intro k v h; simp [lookupKey] at h
  | cons kv rest ih =>
    intro k v h
    obtain ⟨k', v'⟩ := kv
    by_cases hk : k' = k
    · subst hk
      simp [lookupKey] at h
      simp [replaceKeyFirst, h]
    · simp [lookupKey, hk] at h
      simp [replaceKeyFirst, hk, ih _ _ h]

theorem objInsert_lookup_self {fields : List (String × Json)} {k : String}
    {v : Json} (h : lookupKey fields k = some v) : objInsert fields k v = fields := by
  simp [objInsert, h, replaceKeyFirst_lookup_self _ _ _ h]

/-- Writing back the (non-null) value just read at a path leaves the
document unchanged; in particular the modelled `IndexMut` panic cannot
occur on this write. -/
theorem setPath_getPath_of_ne_null :
    ∀ (p : List String) (j : Json), j.getPath p ≠ .null →
      j.setPath p (j.getPath p) = some j := by
  intro p
  induction p with
  | nil => intro j _; cases j <;> rfl
  | cons k rest ih =>
    intro j h
    have hik : j.index k ≠ .null := by
      intro hnull
      rw [Json.getPath, hnull, getPath_null] at h
      exact h rfl
    cases j with
    | obj fields =>
      cases hl : lookupKey fields k with
      | none => exact absurd (by simp [Json.index, hl]) hik
      | some old =>
        have hidx : Json.index (.obj fields) k = old := by simp [Json.index, hl]
        have hrest : old.getPath rest ≠ .null := by
          rw [Json.getPath, hidx] at h; exact h
        have hgp : Json.getPath (.obj fields) (k :: rest) = old.getPath rest := by
          rw [Json.getPath, hidx]
        rw [hgp, Json.setPath, hl]
        simp [ih old hrest, objInsert_lookup_self hl]
    | null => exact absurd (by simp [Json.index]) hik
    | bool b => exact absurd (by simp [Json.index]) hik
    | num lit => exact absurd (by simp [Json.index]) hik
    | str s => exact absurd (by simp [Json.index]) hik
    | arr xs => exact absurd (by simp [Json.index]) hik

/-- A non-string private-data value passes through `expand_privates_2`
unchanged. -/
theorem expand_privates_2_nonstring {pr : Json} (h : ∀ s, pr ≠ .str s) :
    expand_privates_2 pr = .ok pr := by
  cases pr with
  | str s => exact absurd rfl (h s)
  | null => rfl
  | bool b => rfl
  | num lit => rfl
  | arr xs => rfl
  | obj fs => rfl

/-- The body text of the specification's path-A expansion example. -/
def exampleBodyA : List Char :=
  "\x7b\"AddDevice\":\x7b\"DevicePrivateData\":\"%7B%22k%22%3A1%7D\"\x7d\x7d".data

/-- The expanded document the specification expects for `exampleBodyA`. -/
def exampleOutA : Json :=
  .obj [("AddDevice", .obj [("DevicePrivateData", .obj [("k", .num "1")])])]

/-- C3: privacy-data expansion checks path `AddDevice.DevicePrivateData`
first and, when it is non-null, replaces only that value and returns,
never consulting `Resource.Device.DevicePrivateData`; when path A is
null/absent it checks path B the same way; when neither is non-null the
parsed document is returned unchanged with no error; and expanding
`{"AddDevice":{"DevicePrivateData":"%7B%22k%22%3A1%7D"}}` yields
`{"AddDevice":{"DevicePrivateData":{"k":1}}}`. -/
theorem privacy_expansion_path_priority :
    (expand_privates exampleBodyA = some (.ok exampleOutA)) ∧
    (∀ doc v, (doc.getPath pathA).isNull = false →
      expand_privates_2 (doc.getPath pathA) = .ok v →
      expand_parsed doc = (doc.setPath pathA v).map Except.ok) ∧
    (∀ doc v, (doc.getPath pathA).isNull = true →
      (doc.getPath pathB).isNull = false →
      expand_privates_2 (doc.getPath pathB) = .ok v →
      expand_parsed doc = (doc.setPath pathB v).map Except.ok) ∧
    (∀ doc, (doc.getPath pathA).isNull = true →
      (doc.getPath pathB).isNull = true →
      expand_parsed doc = some (.ok doc)) := by
  refine ⟨by rfl, ?_, ?_, ?_⟩
  · intro doc v hA hexp
    unfold expand_parsed
    simp [hA, hexp]
  · intro doc v hA hB hexp
    unfold expand_parsed
    simp [hA, hB, hexp]
  · intro doc hA hB
    unfold expand_parsed
    simp [hA, hB]

/-- Witness for C3: the branch statements applied at concrete documents. -/
theorem privacy_expansion_path_priority_witness :
    (expand_parsed (.obj [("AddDevice", .obj [("DevicePrivateData", .str "%7B%22k%22%3A1%7D")]),
        ("Resource", .obj [("Device", .obj [("DevicePrivateData", .str "%7B%22k%22%3A1%7D")])])]) =
      ((Json.obj [("AddDevice", .obj [("DevicePrivateData", .str "%7B%22k%22%3A1%7D")]),
        ("Resource", .obj [("Device", .obj [("DevicePrivateData", .str "%7B%22k%22%3A1%7D")])])]).setPath
          pathA (.obj [("k", .num "1")])).map Except.ok) ∧
    (expand_parsed (.obj [("Resource", .obj [("Device", .obj [("DevicePrivateData", .str "%7B%22k%22%3A1%7D")])])]) =
      ((Json.obj [("Resource", .obj [("Device", .obj [("DevicePrivateData", .str "%7B%22k%22%3A1%7D")])])]).setPath
          pathB (.obj [("k", .num "1")])).map Except.ok) ∧
    (expand_parsed (.obj [("x", .num "1")]) = some (.ok (.obj [("x", .num "1")]))) := by
  refine ⟨?_, ?_, ?_⟩
  · exact privacy_expansion_path_priority.2.1 _ _ (by rfl) (by rfl)
  · exact privacy_expansion_path_priority.2.2.1 _ _ (by rfl) (by rfl) (by rfl)
  · exact privacy_expansion_path_priority.2.2.2 _ (by rfl) (by rfl)

/-- C10: when the value at the matched private-data path is non-null but
not a string, expansion returns the document unchanged and reports no
error — there is no type check rejecting a non-string value. -/
theorem nonstring_private_value_unchanged (doc : Json) :
    ((doc.getPath pathA).isNull = false → (∀ s, doc.getPath pathA ≠ .str s) →
      expand_parsed doc = some (.ok doc)) ∧
    ((doc.getPath pathA).isNull = true → (doc.getPath pathB).isNull = false →
      (∀ s, doc.getPath pathB ≠ .str s) →
      expand_parsed doc = some (.ok doc)) := by
  constructor
  · intro hA hs
    have hne : doc.getPath pathA ≠ .null := Json.isNull_eq_false.mp hA
    unfold expand_parsed
    simp [hA, expand_privates_2_nonstring hs, setPath_getPath_of_ne_null _ _ hne]
  · intro hA hB hs
    have hne : doc.getPath pathB ≠ .null := Json.isNull_eq_false.mp hB
    unfold expand_parsed
    simp [hA, hB, expand_privates_2_nonstring hs, setPath_getPath_of_ne_null _ _ hne]

/-- Witness for C10: a number at path A, and a boolean at path B, both
pass through unchanged. -/
theorem nonstring_private_value_unchanged_witness :
    (expand_parsed (.obj [("AddDevice", .obj [("DevicePrivateData", .num "5")])]) =
      some (.ok (.obj [("AddDevice", .obj [("DevicePrivateData", .num "5")])]))) ∧
    (expand_parsed (.obj [("Resource", .obj [("Device", .obj [("DevicePrivateData", .bool true)])])]) =
      some (.ok (.obj [("Resource", .obj [("Device", .obj [("DevicePrivateData", .bool true)])])]))) := by
  constructor
  · exact (nonstring_private_value_unchanged _).1 (by rfl)
      (by intro s h; simp [pathA, Json.getPath, Json.index, lookupKey] at h)
  · exact (nonstring_private_value_unchanged _).2 (by rfl) (by rfl)
      (by intro s h; simp [pathB, Json.getPath, Json.index, lookupKey] at h)

/-! ## Lemmas about `cut_text` -/

theorem replaceChar_append (a b : List Char) (t : Char) (r : List Char) :
    replaceChar (a ++ b) t r = replaceChar a t r ++ replaceChar b t r := by
  simp [replaceChar]

theorem escapeCtl_append (a b : List Char) :
    escapeCtl (a ++ b) = escapeCtl a ++ escapeCtl b := by
  simp [escapeCtl, replaceChar_append]

theorem escapeCtl_cons (c : Char) (s : List Char) :
    escapeCtl (c :: s) = escapeCtl [c] ++ escapeCtl s :=
  escapeCtl_append [c] s

theorem escapeCtl_singleton_length (c : Char) : (escapeCtl [c]).length ≤ 2 := by
  by_cases h1 : c = '\n'
  · subst h1; rfl
  · by_cases h2 : c = '\r'
    · subst h2; rfl
    · by_cases h3 : c = '\t'
      · subst h3; rfl
      · simp [escapeCtl, replaceChar, h1, h2, h3]

theorem escapeCtl_length (s : List Char) : (escapeCtl s).length ≤ 2 * s.length := by
  induction s with
  | nil => rfl
  | cons c rest ih =>
    rw [escapeCtl_cons, List.length_append]
    have := escapeCtl_singleton_length c
    simp only [List.length_cons]
    omega

theorem trimChars_length (s : List Char) : (trimChars s).length ≤ s.length := by
  unfold trimChars
  have h1 := (List.dropWhile_sublist (l := s) (p := isRustWhitespace)).length_le
  have h2 := (List.dropWhile_sublist (l := (s.dropWhile isRustWhitespace).reverse)
    (p := isRustWhitespace)).length_le
  simp only [List.length_reverse] at *
  omega

theorem one_le_charUtf8Len (c : Char) : 1 ≤ charUtf8Len c := by
  unfold charUtf8Len utf8EncodeChar
  dsimp only
  split_ifs <;> simp

theorem length_le_utf8Len (s : List Char) : s.length ≤ utf8Len s := by
  induction s with
  | nil => rfl
  | cons c rest ih =>
    have := one_le_charUtf8Len c
    simp only [utf8Len, List.map_cons, List.sum_cons, List.length_cons] at *
    omega

/-- The byte slice, when it does not panic, is a prefix of the text of
at most the requested number of bytes. -/
theorem byteTake_spec :
    ∀ (s : List Char) (n : Nat) (p : List Char), byteTake s n = some p →
      ∃ rest, s = p ++ rest ∧ utf8Len p ≤ n := by
  intro s
  induction s with
  | nil =>
    intro n p h
    cases n with
    | zero =>
      simp [byteTake] at h
      subst h
      exact ⟨[], by simp [utf8Len]⟩
    | succ m => simp [byteTake] at h
  | cons c rest ih =>
    intro n p h
    cases n with
    | zero =>
      simp [byteTake] at h
      subst h
      exact ⟨c :: rest, by simp [utf8Len]⟩
    | succ m =>
      rw [byteTake] at h
      by_cases hle : charUtf8Len c ≤ m + 1
      · rw [if_pos hle] at h
        cases hq : byteTake rest (m + 1 - charUtf8Len c) with
        | none => rw [hq] at h; simp at h
        | some q =>
          rw [hq] at h
          simp at h
          obtain ⟨tail, htail, hlen⟩ := ih _ _ hq
          refine ⟨tail, ?_, ?_⟩
          · simp [← h, htail]
          · simp only [← h, utf8Len, List.map_cons, List.sum_cons]
            simp only [utf8Len] at hlen
            omega
      · rw [if_neg hle] at h; simp at h

/-- C1 counterexample: for the post-data text consisting of 81 newline
characters (longer than 80 characters), the preview text produced by the
code is 160 characters long — not at most 80 post-escape characters as
the claim states, because the code truncates the raw bytes first and
escapes afterwards. -/
theorem overview_preview_escape_order_counterexample :
    (¬ (∀ (text out : List Char), 80 < text.length →
        cut_text text 80 = some out → out.length ≤ 80)) ∧
    (List.replicate 81 '\n').length > 80 ∧
    (cut_text (List.replicate 81 '\n') 80).map List.length = some 160 := by
  refine ⟨?_, by simp, by rfl⟩
  intro hclaim
  have h := hclaim (List.replicate 81 '\n')
    (trimChars (escapeCtl (List.replicate 80 '\n'))) (by simp) (by rfl)
  have hlen : (trimChars (escapeCtl (List.replicate 80 '\n'))).length = 160 := by rfl
  omega

/-- C1 amended: the preview shown for a body text is produced by first
taking at most 80 bytes of the raw text (byte-indexed truncation,
before any escaping), then rendering newline, carriage-return and tab as
two-character escapes, then trimming whitespace (the ellipsis is
appended by the caller); consequently the pre-ellipsis preview of any
text is a whole-character prefix of at most 80 bytes, escaped and
trimmed, and has at most 160 characters. -/
theorem overview_preview_shape (text out : List Char)
    (h : cut_text text 80 = some out) :
    ∃ p rest, text = p ++ rest ∧ utf8Len p ≤ 80 ∧
      out = trimChars (escapeCtl p) ∧ out.length ≤ 160 := by
  unfold cut_text at h
  cases hb : byteTake text (min 80 (utf8Len text)) with
  | none => rw [hb] at h; simp at h
  | some p =>
    rw [hb] at h
    simp at h
    obtain ⟨rest, hrest, hlen⟩ := byteTake_spec _ _ _ hb
    refine ⟨p, rest, hrest, le_trans hlen (min_le_left _ _), h.symm, ?_⟩
    calc out.length = (trimChars (escapeCtl p)).length := by rw [h]
      _ ≤ (escapeCtl p).length := trimChars_length _
      _ ≤ 2 * p.length := escapeCtl_length p
      _ ≤ 2 * utf8Len p := by have := length_le_utf8Len p; omega
      _ ≤ 160 := by have := le_trans hlen (min_le_left 80 (utf8Len text)); omega

/-- Witness for C1 amended: the preview shape at a concrete input. -/
theorem overview_preview_shape_witness :
    ∃ p rest, "hello\tworld".data = p ++ rest ∧ utf8Len p ≤ 80 ∧
      trimChars (escapeCtl "hello\tworld".data) = trimChars (escapeCtl p) ∧
      (trimChars (escapeCtl "hello\tworld".data)).length ≤ 160 := by
  have h := overview_preview_shape "hello\tworld".data
    (trimChars (escapeCtl "hello\tworld".data)) (by rfl)
  obtain ⟨p, rest, h1, h2, h3, h4⟩ := h
  exact ⟨p, rest, h1, h2, h3, h4⟩

/-- C2: slicing a body text whose 80-byte cut falls inside a multi-byte
character makes `cut_text` panic (Rust byte-slice boundary panic),
instead of succeeding with a whole-character prefix: here 79 ASCII
characters followed by `'é'` (2 UTF-8 bytes spanning bytes 79–80). -/
theorem cut_text_boundary_panic :
    utf8Len (List.replicate 79 'a' ++ [Char.ofNat 0xE9]) = 81 ∧
    cut_text (List.replicate 79 'a' ++ [Char.ofNat 0xE9]) 80 = none := by
  exact ⟨by rfl, by rfl⟩

/-! ## Lemmas about the stable name sort -/

theorem char_toNat_inj {a b : Char} (h : a.toNat = b.toNat) : a = b := by
  have hv : a.val = b.val := UInt32.toNat.inj h
  cases a; cases b; cases hv; rfl

theorem charListLt_irrefl : ∀ l : List Char, charListLt l l = false := by
  intro l
  induction l with
  | nil => rfl
  | cons a as ih => simp [charListLt, ih]

theorem charListLt_asymm : ∀ {x y : List Char},
    charListLt x y = true → charListLt y x = false := by
  intro x
  induction x with
  | nil =>
    intro y h
    cases y with
    | nil => simp [charListLt] at h
    | cons b bs => rfl
  | cons a as ih =>
    intro y h
    cases y with
    | nil => simp [charListLt] at h
    | cons b bs =>
      by_cases hab : a.toNat < b.toNat
      · have hba : ¬b.toNat < a.toNat := by omega
        simp [charListLt, hba, hab]
      · by_cases hba : b.toNat < a.toNat
        · simp [charListLt, hab, hba] at h
        · simp [charListLt, hab, hba] at h ⊢
          exact ih h

theorem charListLt_trans : ∀ {x y z : List Char}, charListLt x y = true →
    charListLt y z = true → charListLt x z = true := by
  intro x
  induction x with
  | nil =>
    intro y z hxy hyz
    cases y with
    | nil => simp [charListLt] at hxy
    | cons b bs =>
      cases z with
      | nil => simp [charListLt] at hyz
      | cons c cs => rfl
  | cons a as ih =>
    intro y z hxy hyz
    cases y with
    | nil => simp [charListLt] at hxy
    | cons b bs =>
      cases z with
      | nil => simp [charListLt] at hyz
      | cons c cs =>
        by_cases hab : a.toNat < b.toNat
        · by_cases hbc : b.toNat < c.toNat
          · have hac : a.toNat < c.toNat := by omega
            simp [charListLt, hac]
          · by_cases hcb : c.toNat < b.toNat
            · simp [charListLt, hbc, hcb] at hyz
            · have hac : a.toNat < c.toNat := by omega
              simp [charListLt, hac]
        · by_cases hba : b.toNat < a.toNat
          · simp [charListLt, hab, hba] at hxy
          · simp [charListLt, hab, hba] at hxy
            by_cases hbc : b.toNat < c.toNat
            · have hac : a.toNat < c.toNat := by omega
              simp [charListLt, hac]
            · by_cases hcb : c.toNat < b.toNat
              · simp [charListLt, hbc, hcb] at hyz
              · simp [charListLt, hbc, hcb] at hyz
                have hac : ¬a.toNat < c.toNat := by omega
                have hca : ¬c.toNat < a.toNat := by omega
                simp [charListLt, hac, hca]
                exact ih hxy hyz

theorem charListLt_eq_of_both_false : ∀ {x y : List Char},
    charListLt x y = false → charListLt y x = false → x = y := by
  intro x
  induction x with
  | nil =>
    intro y h1 _
    cases y with
    | nil => rfl
    | cons b bs => simp [charListLt] at h1
  | cons a as ih =>
    intro y h1 h2
    cases y with
    | nil => simp [charListLt] at h2
    | cons b bs =>
      by_cases hab : a.toNat < b.toNat
      · simp [charListLt, hab] at h1
      · by_cases hba : b.toNat < a.toNat
        · simp [charListLt, hba] at h2
        · simp [charListLt, hab, hba] at h1 h2
          have hc : a = b := char_toNat_inj (by omega)
          rw [hc, ih h1 h2]

theorem strLt_irrefl (a : String) : strLt a a = false := charListLt_irrefl _

theorem strLt_asymm {a b : String} (h : strLt a b = true) : strLt b a = false :=
  charListLt_asymm h

theorem strLt_eq_of_both_false {a b : String} (h1 : strLt a b = false)
    (h2 : strLt b a = false) : a = b := by
  cases a; cases b
  exact congrArg String.mk (charListLt_eq_of_both_false h1 h2)

theorem nameLe_total (a b : NameValue) : nameLe a b = true ∨ nameLe b a = true := by
  cases hb : strLt b.name a.name with
  | false => left; simp [nameLe, hb]
  | true => right; simp [nameLe, strLt_asymm hb]

theorem nameLe_trans {a b c : NameValue} (h1 : nameLe a b = true)
    (h2 : nameLe b c = true) : nameLe a c = true := by
  simp only [nameLe, Bool.not_eq_true'] at h1 h2 ⊢
  cases hca : strLt c.name a.name with
  | false => rfl
  | true =>
    cases hab : strLt a.name b.name with
    | true =>
      have : strLt c.name b.name = true := charListLt_trans hca hab
      rw [this] at h2
      exact h2
    | false =>
      have he : a.name = b.name := strLt_eq_of_both_false hab h1
      rw [he] at hca
      rw [hca] at h2
      exact h2

theorem insertByName_perm (a : NameValue) (l : List NameValue) :
    (insertByName a l).Perm (a :: l) := by
  induction l with
  | nil => exact .refl _
  | cons b t ih =>
    simp only [insertByName]
    by_cases h : nameLe a b = true
    · rw [if_pos h]
    · rw [if_neg h]
      exact (List.Perm.cons b ih).trans (List.Perm.swap a b t)

theorem sortByName_perm (l : List NameValue) : (sortByName l).Perm l := by
  induction l with
  | nil => exact .refl _
  | cons a t ih =>
    exact (insertByName_perm a (sortByName t)).trans (.cons a ih)

theorem insertByName_pairwise {a : NameValue} {l : List NameValue}
    (hl : l.Pairwise (fun x y => nameLe x y = true)) :
    (insertByName a l).Pairwise (fun x y => nameLe x y = true) := by
  induction l with
  | nil => simp [insertByName]
  | cons b t ih =>
    rcases List.pairwise_cons.mp hl with ⟨hb, ht⟩
    simp only [insertByName]
    by_cases h : nameLe a b = true
    · rw [if_pos h]
      refine List.pairwise_cons.mpr ⟨?_, hl⟩
      intro x hx
      rcases List.mem_cons.mp hx with rfl | hx'
      · exact h
      · exact nameLe_trans h (hb x hx')
    · rw [if_neg h]
      refine List.pairwise_cons.mpr ⟨?_, ih ht⟩
      intro x hx
      have hmem : x = a ∨ x ∈ t := by
        simpa using (insertByName_perm a t).mem_iff.mp hx
      rcases hmem with rfl | hx'
      · rcases nameLe_total x b with htot | htot
        · exact absurd htot h
        · exact htot
      · exact hb x hx'

theorem sortByName_pairwise (l : List NameValue) :
    (sortByName l).Pairwise (fun x y => nameLe x y = true) := by
  induction l with
  | nil => simp [sortByName]
  | cons a t ih => exact insertByName_pairwise ih

theorem filter_insertByName (a : NameValue) (l : List NameValue) (n : String) :
    (insertByName a l).filter (fun nv => nv.name == n) =
      if a.name == n then a :: l.filter (fun nv => nv.name == n)
      else l.filter (fun nv => nv.name == n) := by
  induction l with
  | nil =>
    simp only [insertByName]
    cases pa : a.name == n <;> simp [List.filter_cons, pa]
  | cons b t ih =>
    simp only [insertByName]
    by_cases h : nameLe a b = true
    · rw [if_pos h]
      by_cases pa : (a.name == n) = true <;> simp [List.filter_cons, pa]
    · rw [if_neg h]
      by_cases pa : (a.name == n) = true
      · have hlt : strLt b.name a.name = true := by
          cases hs : strLt b.name a.name with
          | false => exact absurd (by simp [nameLe, hs]) h
          | true => rfl
        have hne : b.name ≠ n := by
          intro he
          have ha : a.name = n := by simpa using pa
          rw [he, ← ha] at hlt
          simp [strLt_irrefl] at hlt
        simp [List.filter_cons, pa, ih, hne]
      · simp [List.filter_cons, pa, ih]

theorem sortByName_filter (l : List NameValue) (n : String) :
    (sortByName l).filter (fun nv => nv.name == n) =
      l.filter (fun nv => nv.name == n) := by
  induction l with
  | nil => rfl
  | cons a t ih =>
    simp only [sortByName, filter_insertByName, ih, List.filter_cons]

/-- C8: in every overview listing of name/value pairs, the pairs are
listed sorted by name (every pair sorts no later than each pair after
it), the sort is stable (for each name, the subsequence of pairs
carrying that name is exactly the original subsequence, in original
order), the listed pairs are a permutation of the input, and the
specification's example `{b:2, a:1, a:3}` lists as `a:1, a:3, b:2`. -/
theorem name_vals_sorted_stable :
    (∀ nvs : List NameValue,
      (sortByName nvs).Pairwise (fun x y => nameLe x y = true)) ∧
    (∀ (nvs : List NameValue) (n : String),
      (sortByName nvs).filter (fun nv => nv.name == n) =
        nvs.filter (fun nv => nv.name == n)) ∧
    (∀ nvs : List NameValue, (sortByName nvs).Perm nvs) ∧
    (shownNameVals [⟨"b", "2"⟩, ⟨"a", "1"⟩, ⟨"a", "3"⟩] none =
      [⟨"a", "1"⟩, ⟨"a", "3"⟩, ⟨"b", "2"⟩]) :=
  ⟨sortByName_pairwise, sortByName_filter, sortByName_perm, by rfl⟩

/-! ## Lemmas about the overview loop -/

theorem render_entry_of_url_fail {parseUrl : String → Option ParsedUrl}
    {short_url : Bool} {qse he : Option (List String)} {ix : Nat} {e : Entry}
    (h : parseUrl e.request.url = none) :
    render_entry parseUrl short_url qse he ix e = ([], some .urlErr) := by
  simp [render_entry, h]

theorem overviewLoop_aborts (parseUrl : String → Option ParsedUrl)
    (short_url : Bool) (qse he : Option (List String)) :
    ∀ (l : List Entry) (ix : Nat),
      (∃ e, e ∈ l ∧ parseUrl e.request.url = none) →
      (overviewLoop parseUrl short_url qse he ix l).2 ≠ none := by
  intro l
  induction l with
  | nil =>
    intro ix h
    obtain ⟨e, he, _⟩ := h
    simp at he
  | cons e rest ih =>
    intro ix h
    rw [overviewLoop]
    cases hr : render_entry parseUrl short_url qse he ix e with
    | mk lines ab =>
      cases ab with
      | some a => simp
      | none =>
        simp only
        obtain ⟨e', he', hfail⟩ := h
        rcases List.mem_cons.mp he' with rfl | hmem
        · rw [render_entry_of_url_fail hfail] at hr
          simp at hr
        · exact ih (ix + 1) ⟨e', hmem, hfail⟩

theorem overviewLoop_take (parseUrl : String → Option ParsedUrl)
    (short_url : Bool) (qse he : Option (List String)) :
    ∀ (l : List Entry) (ix k : Nat) (hk : k < l.length),
      parseUrl (l[k].request.url) = none →
      overviewLoop parseUrl short_url qse he ix l =
        overviewLoop parseUrl short_url qse he ix (l.take (k + 1)) := by
  intro l
  induction l with
  | nil => intro ix k hk _; simp at hk
  | cons e rest ih =>
    intro ix k hk hfail
    cases k with
    | zero =>
      simp only [List.getElem_cons_zero] at hfail
      rw [List.take_succ_cons, List.take_zero]
      rw [overviewLoop, overviewLoop]
      rw [render_entry_of_url_fail hfail]
    | succ m =>
      simp only [List.getElem_cons_succ] at hfail
      rw [List.take_succ_cons]
      rw [overviewLoop, overviewLoop]
      cases hr : render_entry parseUrl short_url qse he ix e with
      | mk lines ab =>
        cases ab with
        | some a => simp
        | none =>
          simp only
          rw [ih (ix + 1) m (by simpa using Nat.lt_of_succ_lt_succ hk) hfail]

/-- C7: if some entry's request URL fails structured parsing, the whole
overview aborts with an error (the run does not complete normally), and
the lines printed are exactly the count line followed by what the entry
loop produces on the entries up to and including the first failing one —
no entry after the failing one is rendered. -/
theorem overview_url_failure_aborts (parseUrl : String → Option ParsedUrl)
    (doc : Doc) (short_url : Bool) (qse he : Option (List String)) (k : Nat)
    (hk : k < doc.log.entries.length)
    (hfail : parseUrl (doc.log.entries[k].request.url) = none) :
    (print_overview parseUrl doc short_url qse he).2 ≠ none ∧
    (print_overview parseUrl doc short_url qse he).1 =
      (toString doc.log.entries.length ++ " entries") ::
        (overviewLoop parseUrl short_url qse he 0
          (doc.log.entries.take (k + 1))).1 := by
  constructor
  · unfold print_overview
    exact overviewLoop_aborts parseUrl short_url qse he doc.log.entries 0
      ⟨doc.log.entries[k], List.getElem_mem hk, hfail⟩
  · unfold print_overview
    rw [overviewLoop_take parseUrl short_url qse he doc.log.entries 0 k hk hfail]

/-- C9: a pair whose name is in the exclude set never appears in a
listing; the URL line of an entry does not depend on either exclude set;
`short_url` changes nothing but the URL line (all following lines,
including the query-string listing, and the outcome are identical); and
with `short_url` the URL is displayed with its query component
stripped. -/
theorem overview_excludes_and_short_url :
    (∀ (nvs : List NameValue) (excl : List String) (n : String) (nv : NameValue),
      n ∈ excl → nv ∈ shownNameVals nvs (some excl) → nv.name ≠ n) ∧
    (∀ (parseUrl : String → Option ParsedUrl) (short_url : Bool)
      (qse qse' he he' : Option (List String)) (ix : Nat) (e : Entry),
      (render_entry parseUrl short_url qse he ix e).1.head? =
        (render_entry parseUrl short_url qse' he' ix e).1.head?) ∧
    (∀ (parseUrl : String → Option ParsedUrl) (qse he : Option (List String))
      (ix : Nat) (e : Entry),
      (render_entry parseUrl true qse he ix e).1.tail =
        (render_entry parseUrl false qse he ix e).1.tail ∧
      (render_entry parseUrl true qse he ix e).2 =
        (render_entry parseUrl false qse he ix e).2) ∧
    (∀ (parseUrl : String → Option ParsedUrl) (qse he : Option (List String))
      (ix : Nat) (e : Entry) (u : ParsedUrl), parseUrl e.request.url = some u →
      (render_entry parseUrl true qse he ix e).1.head? =
        some (toString ix ++ "/ " ++ e.request.method ++ " " ++
          u.set_query_none.render)) := by
  refine ⟨?_, ?_, ?_, ?_⟩
  · intro nvs excl n nv hn hmem hne
    subst hne
    simp only [shownNameVals, List.mem_filter] at hmem
    obtain ⟨-, hshow⟩ := hmem
    simp only [Bool.not_eq_true'] at hshow
    have htrue : excl.elem nv.name = true := List.elem_eq_true_of_mem hn
    rw [show excl.contains nv.name = excl.elem nv.name from rfl, htrue] at hshow
    simp at hshow
  · intro parseUrl short_url qse qse' he he' ix e
    cases hp : parseUrl e.request.url with
    | none => simp [render_entry, hp]
    | some u0 =>
      cases hpd : e.request.postData with
      | none => simp [render_entry, hp, hpd]
      | some pd =>
        cases hc : cut_text pd.text 80 with
        | none => simp [render_entry, hp, hpd, hc]
        | some ct => simp [render_entry, hp, hpd, hc]
  · intro parseUrl qse he ix e
    cases hp : parseUrl e.request.url with
    | none => simp [render_entry, hp]
    | some u0 =>
      cases hpd : e.request.postData with
      | none => simp [render_entry, hp, hpd]
      | some pd =>
        cases hc : cut_text pd.text 80 with
        | none => simp [render_entry, hp, hpd, hc]
        | some ct => simp [render_entry, hp, hpd, hc]
  · intro parseUrl qse he ix e u hp
    cases hpd : e.request.postData with
    | none => simp [render_entry, hp, hpd]
    | some pd =>
      cases hc : cut_text pd.text 80 with
      | none => simp [render_entry, hp, hpd, hc]
      | some ct => simp [render_entry, hp, hpd, hc]

/-! ## Sample documents for concrete witnesses -/

/-- A response with the given content text. -/
def sampleResponse (t : List Char) : Response :=
  ⟨200, "OK", "HTTP/1.1", [], .null, ⟨0, "text/plain", 0, t⟩, "", 0, 0, .null⟩

/-- A request with the given URL and optional post data. -/
def sampleRequest (u : String) (pd : Option PostData) : Request :=
  ⟨"GET", u, "HTTP/1.1", [], [], .null, 0, 0, pd⟩

/-- An entry with the given request URL, post data and response text. -/
def sampleEntry (u : String) (pd : Option PostData) (rt : List Char) : Entry :=
  ⟨"2020-01-01T00:00:00Z", 0.0, sampleRequest u pd, sampleResponse rt,
    .null, .null, .null, .null⟩

/-- A document with the given entries. -/
def sampleDoc (es : List Entry) : Doc := ⟨⟨"1.2", ⟨"cap", "1.0"⟩, [], es⟩⟩

/-- A URL parser that fails exactly on the text `"bad"`. -/
def failOnBad (s : String) : Option ParsedUrl :=
  if s = "bad" then none else some ⟨s, some "q=1"⟩

/-- Two entries, the second with an unparseable URL. -/
def wDoc7 : Doc := sampleDoc [sampleEntry "ok" none [], sampleEntry "bad" none []]

/-! ## Body-extraction claims -/

/-- C5: an entry index greater than or equal to the number of entries is
a fatal index error for the body operation — never a silent empty
result — whatever `which` and `ecs` are. -/
theorem body_index_out_of_range (doc : Doc) (num : Nat) (which : String)
    (ecs : Bool) (h : doc.log.entries.length ≤ num) :
    print_body doc num which ecs =
      .error (.indexOutOfBounds doc.log.entries.length num) := by
  unfold print_body
  rw [List.getElem?_eq_none h]

/-- Witness for C5: out-of-range requests on an empty document, for both
`which = "req"` and `which = "resp"`. -/
theorem body_index_out_of_range_witness :
    print_body (sampleDoc []) 0 "req" false =
      .error (.indexOutOfBounds 0 0) ∧
    print_body (sampleDoc []) 3 "resp" true =
      .error (.indexOutOfBounds 0 3) :=
  ⟨body_index_out_of_range _ 0 "req" false (by simp [sampleDoc]),
   body_index_out_of_range _ 3 "resp" true (by simp [sampleDoc])⟩

/-- C6: for `which = request`, an entry without post data yields the
distinct informational outcome naming the entry — a normal result, not
an error, and its message is not an empty string; an entry with post
data yields the raw text, or the expanded text when expansion is enabled
and succeeds. -/
theorem body_request_no_post_data (doc : Doc) (num : Nat) (e : Entry)
    (he : doc.log.entries[num]? = some e) :
    (e.request.postData = none → ∀ ecs : Bool,
      print_body doc num "req" ecs =
        .ok ["Request " ++ toString num ++ " has no post data"] ∧
      "Request " ++ toString num ++ " has no post data" ≠ "") ∧
    (∀ pd : PostData, e.request.postData = some pd →
      (print_body doc num "req" false = .ok [String.mk pd.text]) ∧
      (∀ j : Json, expand_privates pd.text = some (.ok j) →
        print_body doc num "req" true = .ok [j.render])) := by
  constructor
  · intro hnone ecs
    constructor
    · unfold print_body
      rw [he]
      simp [hnone]
    · intro hcontra
      have hlen := congrArg String.length hcontra
      rw [String.length_append, String.length_append] at hlen
      rw [show String.length "Request " = 8 from rfl,
        show String.length " has no post data" = 17 from rfl,
        show String.length "" = 0 from rfl] at hlen
      omega
  · intro pd hpd
    constructor
    · unfold print_body
      rw [he]
      simp [hpd]
    · intro j hexp
      unfold print_body
      rw [he]
      simp [hpd, hexp]

/-- Witness for C6: a concrete entry without post data, and one whose
post data is the JSON text `1`. -/
theorem body_request_no_post_data_witness :
    (print_body (sampleDoc [sampleEntry "u" none []]) 0 "req" false =
      .ok ["Request 0 has no post data"]) ∧
    ("Request " ++ toString 0 ++ " has no post data" ≠ "") ∧
    (print_body (sampleDoc [sampleEntry "u" (some ⟨"application/json", "1".data⟩) []])
      0 "req" false = .ok [String.mk "1".data]) ∧
    (print_body (sampleDoc [sampleEntry "u" (some ⟨"application/json", "1".data⟩) []])
      0 "req" true = .ok [(Json.num "1").render]) := by
  have h1 := (body_request_no_post_data (sampleDoc [sampleEntry "u" none []]) 0
    (sampleEntry "u" none []) (by rfl)).1 (by rfl) false
  have h2 := (body_request_no_post_data
    (sampleDoc [sampleEntry "u" (some ⟨"application/json", "1".data⟩) []]) 0
    (sampleEntry "u" (some ⟨"application/json", "1".data⟩) [])
    (by rfl)).2 ⟨"application/json", "1".data⟩ (by rfl)
  exact ⟨h1.1, h1.2, h2.1, h2.2 (Json.num "1") (by rfl)⟩

/-- C4: with expansion enabled, a failure of privacy-data expansion
(body text not JSON, UTF-8 or nested-JSON failure inside it) is fatal
for the body-extraction call: the error is propagated as the outcome,
with no output lines, for both the request and the response body. -/
theorem body_expansion_error_fatal (doc : Doc) (num : Nat) (e : Entry)
    (er : ExpErr) (he : doc.log.entries[num]? = some e) :
    (∀ pd : PostData, e.request.postData = some pd →
      expand_privates pd.text = some (.error er) →
      print_body doc num "req" true = .error (.unwrapFailed er)) ∧
    (expand_privates e.response.content.text = some (.error er) →
      print_body doc num "resp" true = .error (.unwrapFailed er)) := by
  constructor
  · intro pd hpd hexp
    unfold print_body
    rw [he]
    simp [hpd, hexp]
  · intro hexp
    unfold print_body
    rw [he]
    simp [hexp]

/-- Witness for C4: a post-data body and a response body that are not
JSON make the ecs body extraction fail with the propagated error. -/
theorem body_expansion_error_fatal_witness :
    (print_body (sampleDoc [sampleEntry "u" (some ⟨"text/plain", "x".data⟩) []])
      0 "req" true = .error (.unwrapFailed .jsonErr)) ∧
    (print_body (sampleDoc [sampleEntry "u" none "x".data]) 0 "resp" true =
      .error (.unwrapFailed .jsonErr)) := by
  constructor
  · exact (body_expansion_error_fatal
      (sampleDoc [sampleEntry "u" (some ⟨"text/plain", "x".data⟩) []]) 0
      (sampleEntry "u" (some ⟨"text/plain", "x".data⟩) []) .jsonErr
      (by rfl)).1 ⟨"text/plain", "x".data⟩ (by rfl) (by rfl)
  · exact (body_expansion_error_fatal (sampleDoc [sampleEntry "u" none "x".data])
      0 (sampleEntry "u" none "x".data) .jsonErr (by rfl)).2 (by rfl)

/-- Witness for C7: on a two-entry document whose second entry's URL
fails to parse, the overview aborts and prints only the count line and
the loop output of the first two entries. -/
theorem overview_url_failure_aborts_witness :
    (print_overview failOnBad wDoc7 false none none).2 ≠ none ∧
    (print_overview failOnBad wDoc7 false none none).1 =
      (toString wDoc7.log.entries.length ++ " entries") ::
        (overviewLoop failOnBad false none none 0
          (wDoc7.log.entries.take 2)).1 :=
  overview_url_failure_aborts failOnBad wDoc7 false none none 1
    (by simp [wDoc7, sampleDoc]) (by rfl)

/-- Witness for C9: the exclusion, URL-line independence, short-URL
locality and query-stripping statements at concrete inputs. -/
theorem overview_excludes_and_short_url_witness :
    ((⟨"b", "2"⟩ : NameValue).name ≠ "a") ∧
    ((render_entry failOnBad true (some ["a"]) none 0 (sampleEntry "ok" none [])).1.head? =
      (render_entry failOnBad true none (some ["Host"]) 0 (sampleEntry "ok" none [])).1.head?) ∧
    ((render_entry failOnBad true none none 0 (sampleEntry "ok" none [])).1.tail =
      (render_entry failOnBad false none none 0 (sampleEntry "ok" none [])).1.tail) ∧
    ((render_entry failOnBad true none none 0 (sampleEntry "ok" none [])).1.head? =
      some (toString 0 ++ "/ " ++ (sampleEntry "ok" none []).request.method ++ " " ++
        (ParsedUrl.mk "ok" (some "q=1")).set_query_none.render)) := by
  refine ⟨?_, ?_, ?_, ?_⟩
  · exact overview_excludes_and_short_url.1 [⟨"a", "1"⟩, ⟨"b", "2"⟩] ["a"] "a"
      ⟨"b", "2"⟩ (by simp) (by decide)
  · exact overview_excludes_and_short_url.2.1 failOnBad true (some ["a"]) none
      (some ["Host"]) none 0 (sampleEntry "ok" none [])
  · exact (overview_excludes_and_short_url.2.2.1 failOnBad none none 0
      (sampleEntry "ok" none [])).1
  · exact overview_excludes_and_short_url.2.2.2 failOnBad none none 0
      (sampleEntry "ok" none []) (ParsedUrl.mk "ok" (some "q=1")) (by rfl)

end Haricot
